import Mathlib

/-!
Shallow embedding of the dofus-data-file-parser decoder
(src/internal/parser/d2o.go, src/internal/parser/d2i.go, src/cmd/main.go).

Modelling conventions:
* a Go `[]byte` buffer is a `List Nat` whose elements are byte values;
* Go strings are byte lists (the result of `string(bs)`);
* the Go `DataInput` struct keeps its field names `Data` and `IndexPointer`;
* a Go function that can panic or `log.Fatal` (terminating the process) is
  modelled with `Except DErr`, where `DErr.fatalStop` stands for a panic or
  `log.Fatal`, and `DErr.softErr` stands for an error value returned to the
  caller (which the batch driver logs and skips); `DErr.outOfFuel` is a model
  artifact of the fuel parameter bounding recursion and never corresponds to
  a behaviour of the Go code when enough fuel is supplied;
* Go maps (`map[int]int`, `map[int]Class`, `map[string]any`) are association
  lists with insert-replace semantics (`alInsert`, `objInsert`): one entry per
  key, a repeated insert overwrites.  `getSortedValues` sorts the collected
  values, so the randomness of Go map iteration order is irrelevant to it.
-/

namespace DofusParser

/-- Error outcomes of the decoder. `softErr` models a Go error value returned
to the caller; `fatalStop` models a panic or `log.Fatal` (process exit);
`outOfFuel` is the artificial bound on recursion depth in this model. -/
inductive DErr where
  | softErr : DErr
  | fatalStop : DErr
  | outOfFuel : DErr
deriving Repr, DecidableEq

/-- Go struct `DataInput` (d2o.go): an immutable byte buffer plus a cursor. -/
structure DataInput where
  Data : List Nat
  IndexPointer : Nat
deriving Repr, DecidableEq

/-- Go `NewDataInput`. -/
def NewDataInput (data : List Nat) : DataInput :=
  { Data := data, IndexPointer := 0 }

/-- Go `DataInput.Read`: returns the next n bytes and advances, or returns
nil (here `none`) without advancing when fewer than n bytes remain. -/
def DataInput.Read (di : DataInput) (n : Nat) : Option (List Nat) × DataInput :=
  if di.IndexPointer + n > di.Data.length then (none, di)
  else (some ((di.Data.drop di.IndexPointer).take n),
        { di with IndexPointer := di.IndexPointer + n })

/-- Go `DataInput.SetPointer`. -/
def DataInput.SetPointer (di : DataInput) (p : Nat) : DataInput :=
  { di with IndexPointer := p }

/-- Big-endian value of a byte list (as `binary.BigEndian.Uint32`/`Uint16`/
`Uint64` read it). -/
def beVal (bs : List Nat) : Nat :=
  bs.foldl (fun acc b => acc * 256 + b % 256) 0

/-- Reinterpret a 32-bit unsigned value as Go `int32` (two's complement). -/
def toInt32 (n : Nat) : Int :=
  if n % 2 ^ 32 < 2 ^ 31 then ((n % 2 ^ 32 : Nat) : Int)
  else ((n % 2 ^ 32 : Nat) : Int) - 2 ^ 32

/-- Go `DataInput.ReadInt`: 4 bytes big-endian, as a signed 32-bit value.
`binary.BigEndian.Uint32(nil)` panics, hence `fatalStop` on a short read. -/
def DataInput.ReadInt (di : DataInput) : Except DErr (Int × DataInput) :=
  match di.Read 4 with
  | (none, _) => .error .fatalStop
  | (some bs, di2) => .ok (toInt32 (beVal bs), di2)

/-- Go `DataInput.ReadUint`: 4 bytes big-endian, unsigned. -/
def DataInput.ReadUint (di : DataInput) : Except DErr (Nat × DataInput) :=
  match di.Read 4 with
  | (none, _) => .error .fatalStop
  | (some bs, di2) => .ok (beVal bs, di2)

/-- Go `DataInput.ReadUnsignedShort`: 2 bytes big-endian. -/
def DataInput.ReadUnsignedShort (di : DataInput) : Except DErr (Nat × DataInput) :=
  match di.Read 2 with
  | (none, _) => .error .fatalStop
  | (some bs, di2) => .ok (beVal bs, di2)

/-- Go `DataInput.ReadUTF`: a 2-byte big-endian length then that many bytes.
When the byte read overruns, Go gets `string(nil) = ""` and the pointer does
not advance past the length, hence the `none` branch yields `[]`. -/
def DataInput.ReadUTF (di : DataInput) : Except DErr (List Nat × DataInput) :=
  match di.ReadUnsignedShort with
  | .error e => .error e
  | .ok (lon, di2) =>
    match di2.Read lon with
    | (none, di3) => .ok ([], di3)
    | (some s, di3) => .ok (s, di3)

/-- Go `DataInput.ReadBoolean`: one byte, true iff it equals 1. -/
def DataInput.ReadBoolean (di : DataInput) : Except DErr (Bool × DataInput) :=
  match di.Read 1 with
  | (none, _) => .error .fatalStop
  | (some bs, di2) => .ok (bs.headD 0 == 1, di2)

/-- IEEE-754 double NaN test on a 64-bit pattern: exponent all ones and a
nonzero mantissa (this is exactly when Go `math.IsNaN` holds of the float). -/
def isNaN64 (bits : Nat) : Bool :=
  (bits / 2 ^ 52) % 2 ^ 11 == 2 ^ 11 - 1 && bits % 2 ^ 52 != 0

/-- Go `DataInput.ReadDouble`: 8 bytes big-endian. The model carries the raw
64-bit pattern of the float instead of a floating-point value. -/
def DataInput.ReadDouble (di : DataInput) : Except DErr (Nat × DataInput) :=
  match di.Read 8 with
  | (none, _) => .error .fatalStop
  | (some bs, di2) => .ok (beVal bs, di2)

/-- Go `DataInput.ReadUnsignedByte`: one byte (`Read(1)[0]`, panics short). -/
def DataInput.ReadUnsignedByte (di : DataInput) : Except DErr (Nat × DataInput) :=
  match di.Read 1 with
  | (none, _) => .error .fatalStop
  | (some bs, di2) => .ok (bs.headD 0, di2)

/-- The loop body of Go `DataInput.ReadVarInt`: `for i := 0; i < 32; i += 7`,
accumulating 7 payload bits per byte, returning when the continuation bit
(0x80) is clear, and panicking ("Too much data") once i reaches 32. -/
def readVarIntLoop (i : Nat) (ans : Nat) (di : DataInput) :
    Except DErr (Nat × DataInput) :=
  if _h : i < 32 then
    match di.ReadUnsignedByte with
    | .error e => .error e
    | .ok (b, di2) =>
      let ans2 := ans ||| ((b &&& 127) <<< i)
      if b &&& 128 == 0 then .ok (ans2, di2)
      else readVarIntLoop (i + 7) ans2 di2
  else .error .fatalStop
termination_by 32 - i

/-- Go `DataInput.ReadVarInt`. -/
def DataInput.ReadVarInt (di : DataInput) : Except DErr (Nat × DataInput) :=
  readVarIntLoop 0 0 di

/-! ### d2i.go: the translation-string reader -/

/-- Go `readString` (d2i.go): remember the cursor, jump to `location`, read a
length-prefixed string there, jump back, return the string. -/
def readString (dataInput : DataInput) (location : Nat) :
    Except DErr (List Nat × DataInput) :=
  let startLocation := dataInput.IndexPointer
  match (dataInput.SetPointer location).ReadUTF with
  | .error e => .error e
  | .ok (str, di2) => .ok (str, di2.SetPointer startLocation)

/-! ### d2o.go: data model -/

/-- The `GameDataTypeEnum` constants of d2o.go. `FieldType` is a Go `int`. -/
def Integer : Int := -1
def Boolean : Int := -2
/-- The `String` field-type constant (renamed: `String` is a core Lean type). -/
def StringT : Int := -3
def Number : Int := -4
def I18n : Int := -5
def UnsignedInteger : Int := -6
def Vector : Int := -99

/-- Go struct `GameDataField`: a field name, a type tag, and (for vectors)
a nested element descriptor. Inductive because the nesting is recursive. -/
inductive GameDataField : Type where
  | mk (name : List Nat) (ftype : Int) (subType : Option GameDataField) : GameDataField

def GameDataField.name : GameDataField → List Nat
  | .mk n _ _ => n

def GameDataField.ftype : GameDataField → Int
  | .mk _ t _ => t

def GameDataField.subType : GameDataField → Option GameDataField
  | .mk _ _ s => s

/-- Go struct `Class`. -/
structure Class where
  PackageName : List Nat
  PackageClass : List Nat
  Fields : List GameDataField

/-- The zero value of Go's `Class` struct: what `classeTable[id]` yields for
an id that is not in the map. -/
def emptyClass : Class :=
  { PackageName := [], PackageClass := [], Fields := [] }

/-- A decoded value (`Object = any` in d2o.go). `VNumber` carries the raw
64-bit pattern of the Go float64; `VNull` is Go `nil`. -/
inductive Value : Type where
  | VNull : Value
  | VInt : Int → Value
  | VUint : Nat → Value
  | VBool : Bool → Value
  | VString : List Nat → Value
  | VNumber : Nat → Value
  | VList : List Value → Value
  | VObject : List (List Nat × Value) → Value

/-- Insert-replace into an association list: the model of `m[k] = v` on a Go
map, keeping one entry per key. -/
def alInsert {α : Type} (m : List (Int × α)) (k : Int) (v : α) : List (Int × α) :=
  if m.any (fun p => p.1 == k) then m.map (fun p => if p.1 == k then (k, v) else p)
  else m ++ [(k, v)]

/-- Lookup in an association list (the model of `m[k]`, as an `Option`). -/
def alLookup {α : Type} (m : List (Int × α)) (k : Int) : Option α :=
  (m.find? (fun p => p.1 == k)).map Prod.snd

/-- Insert-replace for an object's field map (`object[name] = v`). -/
def objInsert (m : List (List Nat × Value)) (k : List Nat) (v : Value) :
    List (List Nat × Value) :=
  if m.any (fun p => p.1 == k) then m.map (fun p => if p.1 == k then (k, v) else p)
  else m ++ [(k, v)]

/-- The bytes of the Go string literal `"ClassType_"`. -/
def classTypeKey : List Nat := [67, 108, 97, 115, 115, 84, 121, 112, 101, 95]

/-- Go struct `D2oData`. -/
structure D2oData where
  Classes : List (Int × Class)
  Objects : List Value

/-! ### d2o.go: schema decoding -/

/-- Go `readField`: field name, then a type tag; a Vector tag recurses into
the element descriptor; a zero tag hits `log.Fatal` (`fatalStop`). -/
def readField : Nat → DataInput → Except DErr (GameDataField × DataInput)
  | 0, _ => .error .outOfFuel
  | fuel + 1, di =>
    match di.ReadUTF with
    | .error e => .error e
    | .ok (fieldName, di2) =>
      match di2.ReadInt with
      | .error e => .error e
      | .ok (fieldTypeId, di3) =>
        if fieldTypeId == Vector then
          match readField fuel di3 with
          | .error e => .error e
          | .ok (sub, di4) => .ok (.mk fieldName Vector (some sub), di4)
        else if fieldTypeId < 0 then .ok (.mk fieldName fieldTypeId none, di3)
        else if fieldTypeId > 0 then .ok (.mk fieldName fieldTypeId none, di3)
        else .error .fatalStop

/-- The field loop of Go `readClassDefinition` (`fieldsCount` iterations). -/
def readFieldList : Nat → Nat → DataInput → Except DErr (List GameDataField × DataInput)
  | _, 0, di => .ok ([], di)
  | fuel, n + 1, di =>
    match readField fuel di with
    | .error e => .error e
    | .ok (f, di2) =>
      match readFieldList fuel n di2 with
      | .error e => .error e
      | .ok (fs, di3) => .ok (f :: fs, di3)

/-- Go `readClassDefinition`: class name, package name, field count, fields.
A negative field count runs the Go loop zero times, hence `Int.toNat`. -/
def readClassDefinition (fuel : Nat) (dataInput : DataInput) :
    Except DErr (Class × DataInput) :=
  match dataInput.ReadUTF with
  | .error e => .error e
  | .ok (className, di2) =>
    match di2.ReadUTF with
    | .error e => .error e
    | .ok (packageName, di3) =>
      match di3.ReadInt with
      | .error e => .error e
      | .ok (fieldsCount, di4) =>
        match readFieldList fuel fieldsCount.toNat di4 with
        | .error e => .error e
        | .ok (fields, di5) =>
          .ok ({ PackageName := packageName, PackageClass := className,
                 Fields := fields }, di5)

/-! ### d2o.go: object decoding -/

mutual

/-- Go `readObject`: seed the object with the `ClassType_` discriminator and
decode each field of the class in declared order. -/
def readObject : Nat → DataInput → List (Int × Class) → Class →
    Except DErr (Value × DataInput)
  | 0, _, _, _ => .error .outOfFuel
  | fuel + 1, di, classeTable, c =>
    match readFieldsLoop fuel di classeTable c.Fields
        [(classTypeKey, .VString c.PackageClass)] with
    | .error e => .error e
    | .ok (obj, di2) => .ok (.VObject obj, di2)

/-- The per-field loop of Go `readObject` (`object[field.Name] = fieldObject`). -/
def readFieldsLoop : Nat → DataInput → List (Int × Class) → List GameDataField →
    List (List Nat × Value) → Except DErr (List (List Nat × Value) × DataInput)
  | 0, _, _, _, _ => .error .outOfFuel
  | _ + 1, di, _, [], acc => .ok (acc, di)
  | fuel + 1, di, t, f :: fs, acc =>
    match readFieldValue fuel di t f with
    | .error e => .error e
    | .ok (v, di2) => readFieldsLoop fuel di2 t fs (objInsert acc f.name v)

/-- The switch on `field.Type` in Go `readObject`. A NaN double becomes `nil`
(`VNull`); the default case reads a runtime class id, falls back to the
static tag when the id is unknown, and decodes with the class found — or with
the zero-value class when the fallback id is unknown too (Go map semantics). -/
def readFieldValue : Nat → DataInput → List (Int × Class) → GameDataField →
    Except DErr (Value × DataInput)
  | 0, _, _, _ => .error .outOfFuel
  | fuel + 1, di, t, f =>
    if f.ftype == Integer then (di.ReadInt).map (fun p => (.VInt p.1, p.2))
    else if f.ftype == Boolean then (di.ReadBoolean).map (fun p => (.VBool p.1, p.2))
    else if f.ftype == StringT then (di.ReadUTF).map (fun p => (.VString p.1, p.2))
    else if f.ftype == Number then
      match di.ReadDouble with
      | .error e => .error e
      | .ok (number, di2) =>
        if isNaN64 number then .ok (.VNull, di2) else .ok (.VNumber number, di2)
    else if f.ftype == I18n then (di.ReadInt).map (fun p => (.VInt p.1, p.2))
    else if f.ftype == UnsignedInteger then (di.ReadUint).map (fun p => (.VUint p.1, p.2))
    else if f.ftype == Vector then readVector fuel di t f
    else
      match di.ReadInt with
      | .error e => .error e
      | .ok (cid, di2) =>
        let classId := if (alLookup t cid).isSome then cid else f.ftype
        readObject fuel di2 t ((alLookup t classId).getD emptyClass)

/-- Go `readVector`: a 4-byte length then that many elements (a negative
length runs the loop zero times). -/
def readVector : Nat → DataInput → List (Int × Class) → GameDataField →
    Except DErr (Value × DataInput)
  | 0, _, _, _ => .error .outOfFuel
  | fuel + 1, di, t, f =>
    match di.ReadInt with
    | .error e => .error e
    | .ok (vectorLength, di2) =>
      match readVectorElems fuel di2 t f vectorLength.toNat with
      | .error e => .error e
      | .ok (vs, di3) => .ok (.VList vs, di3)

/-- The element loop of Go `readVector`; dereferencing a nil `field.SubType`
inside the loop would panic, hence `fatalStop` there. -/
def readVectorElems : Nat → DataInput → List (Int × Class) → GameDataField →
    Nat → Except DErr (List Value × DataInput)
  | 0, _, _, _, _ => .error .outOfFuel
  | _ + 1, di, _, _, 0 => .ok ([], di)
  | fuel + 1, di, t, f, n + 1 =>
    match f.subType with
    | none => .error .fatalStop
    | some sub =>
      match readVectorElem fuel di t sub with
      | .error e => .error e
      | .ok (v, di2) =>
        match readVectorElems fuel di2 t f n with
        | .error e => .error e
        | .ok (vs, di3) => .ok (v :: vs, di3)

/-- The switch on `field.SubType.Type` in Go `readVector`. The `Number` case
appends the double unchanged (no NaN check here, unlike `readObject`); an
element whose runtime class id is unknown is appended as `nil` (`VNull`). -/
def readVectorElem : Nat → DataInput → List (Int × Class) → GameDataField →
    Except DErr (Value × DataInput)
  | 0, _, _, _ => .error .outOfFuel
  | fuel + 1, di, t, sub =>
    if sub.ftype == Integer then (di.ReadInt).map (fun p => (.VInt p.1, p.2))
    else if sub.ftype == Boolean then (di.ReadBoolean).map (fun p => (.VBool p.1, p.2))
    else if sub.ftype == StringT then (di.ReadUTF).map (fun p => (.VString p.1, p.2))
    else if sub.ftype == Number then (di.ReadDouble).map (fun p => (.VNumber p.1, p.2))
    else if sub.ftype == I18n then (di.ReadInt).map (fun p => (.VInt p.1, p.2))
    else if sub.ftype == UnsignedInteger then (di.ReadUint).map (fun p => (.VUint p.1, p.2))
    else if sub.ftype == Vector then readVector fuel di t sub
    else
      match di.ReadInt with
      | .error e => .error e
      | .ok (cid, di2) =>
        match alLookup t cid with
        | some c => readObject fuel di2 t c
        | none => .ok (.VNull, di2)

end

/-! ### d2o.go: container orchestration -/

/-- Go `getSortedValues`: collect the values of the index map and sort them
ascending (`sort.Ints`). Go map iteration order is arbitrary, but sorting
makes the result a function of the value multiset alone, so an insertion
sort of the association list's values models it exactly. -/
def getSortedValues (m : List (Int × Int)) : List Int :=
  (m.map Prod.snd).insertionSort (· ≤ ·)

/-- The index-table read loop of `ProcessD2oFile`: `indexesLength` pairs of
(id, offset), read in file order. -/
def readIndexEntries : Nat → DataInput → Except DErr (List (Int × Int) × DataInput)
  | 0, di => .ok ([], di)
  | n + 1, di =>
    match di.ReadInt with
    | .error e => .error e
    | .ok (key, di2) =>
      match di2.ReadInt with
      | .error e => .error e
      | .ok (pointer, di3) =>
        match readIndexEntries n di3 with
        | .error e => .error e
        | .ok (rest, di4) => .ok ((key, pointer) :: rest, di4)

/-- `indexTable[key] = pointer` over the entries in read order: a repeated id
overwrites the earlier offset (Go map assignment). -/
def buildIndexTable (entries : List (Int × Int)) : List (Int × Int) :=
  entries.foldl (fun m e => alInsert m e.1 e.2) []

/-- The class-table read loop of `ProcessD2oFile`: `classCount` times, a class
id then a class definition, accumulated with map-assignment semantics. -/
def readClassTable : Nat → Nat → DataInput → List (Int × Class) →
    Except DErr (List (Int × Class) × DataInput)
  | _, 0, di, acc => .ok (acc, di)
  | fuel, n + 1, di, acc =>
    match di.ReadInt with
    | .error e => .error e
    | .ok (classIdentifier, di2) =>
      match readClassDefinition fuel di2 with
      | .error e => .error e
      | .ok (c, di3) => readClassTable fuel n di3 (alInsert acc classIdentifier c)

/-- The object loop of `ProcessD2oFile`: for each offset (already sorted),
reposition, read the leading class id, look it up (zero-value class when
absent, as in Go), and decode one object. -/
def readObjectsLoop : List Int → DataInput → List (Int × Class) → Nat →
    Except DErr (List Value × DataInput)
  | [], di, _, _ => .ok ([], di)
  | index :: rest, di, t, fuel =>
    match (di.SetPointer index.toNat).ReadInt with
    | .error e => .error e
    | .ok (classId, di2) =>
      match readObject fuel di2 t ((alLookup t classId).getD emptyClass) with
      | .error e => .error e
      | .ok (v, di3) =>
        match readObjectsLoop rest di3 t fuel with
        | .error e => .error e
        | .ok (vs, di4) => .ok (v :: vs, di4)

/-- Decoding of the single top-level object stored at `index`: what one
iteration of the object loop produces. It depends only on the buffer, the
class table and the offset, because the loop repositions the cursor first. -/
def readTopObject (data : List Nat) (t : List (Int × Class)) (fuel : Nat)
    (index : Int) : Except DErr Value :=
  match (DataInput.mk data index.toNat).ReadInt with
  | .error e => .error e
  | .ok (classId, di2) =>
    (readObject fuel di2 t ((alLookup t classId).getD emptyClass)).map Prod.fst

/-- Go `ProcessD2oFile` on the bytes of one file (`os.ReadFile` elided): magic
header, index pointer, index table, class table, then one object per index
offset in ascending offset order. A bad header is an error value returned to
the caller (`softErr`). Negative counts run the Go loops zero times; a
negative index pointer or offset makes Go panic on the next slice access and
lies outside the modelled well-formed domain (`Int.toNat` clamps it). -/
def ProcessD2oFile (fileContentBytes : List Nat) (fuel : Nat) :
    Except DErr D2oData :=
  let dataInput := NewDataInput fileContentBytes
  let header := (dataInput.Read 3).1.getD []
  let di1 := (dataInput.Read 3).2
  if header ≠ [68, 50, 79] then .error .softErr
  else
    match di1.ReadInt with
    | .error e => .error e
    | .ok (indexesPointer, _) =>
      let di2 := di1.SetPointer indexesPointer.toNat
      match di2.ReadInt with
      | .error e => .error e
      | .ok (indexesLengthBytes, di3) =>
        match readIndexEntries (indexesLengthBytes / 8).toNat di3 with
        | .error e => .error e
        | .ok (entries, di4) =>
          let indexTable := buildIndexTable entries
          match di4.ReadInt with
          | .error e => .error e
          | .ok (classCount, di5) =>
            match readClassTable fuel classCount.toNat di5 [] with
            | .error e => .error e
            | .ok (classTable, di6) =>
              match readObjectsLoop (getSortedValues indexTable) di6 classTable fuel with
              | .error e => .error e
              | .ok (objects, _) =>
                .ok { Classes := classTable, Objects := objects }

/-! ### cmd/main.go: the batch driver -/

/-- The d2o loop of Go `processCommonFolder`, over the byte contents of the
files of the folder: an error value returned by `ProcessD2oFile` is logged
and the loop continues with the next file, but a panic or `log.Fatal`
(`fatalStop`) terminates the whole process, and with it the batch. -/
def processCommonFolder (files : List (List Nat)) (fuel : Nat) :
    Except DErr (List D2oData) :=
  match files with
  | [] => .ok []
  | f :: rest =>
    match ProcessD2oFile f fuel with
    | .ok d =>
      match processCommonFolder rest fuel with
      | .error e => .error e
      | .ok ds => .ok (d :: ds)
    | .error .softErr => processCommonFolder rest fuel
    | .error .fatalStop => .error .fatalStop
    | .error .outOfFuel => .error .outOfFuel

/-! ### Basic cursor lemmas -/

theorem Read_snd_data (di : DataInput) (n : Nat) : ((di.Read n).2).Data = di.Data := by
  unfold DataInput.Read
  split <;> rfl

theorem Read_fst_none_iff (di : DataInput) (n : Nat) :
    (di.Read n).1 = none ↔ di.Data.length < di.IndexPointer + n := by
  unfold DataInput.Read
  split <;> rename_i hc <;> simp <;> omega

theorem Read_none_state {di : DataInput} {n : Nat} (h : (di.Read n).1 = none) :
    (di.Read n).2 = di := by
  unfold DataInput.Read at h ⊢
  split at h
  · split <;> simp_all
  · simp at h

theorem Read_ok_elim {di : DataInput} {n : Nat} {bs : List Nat} {di2 : DataInput}
    (h : di.Read n = (some bs, di2)) :
    di.IndexPointer + n ≤ di.Data.length ∧
    bs = (di.Data.drop di.IndexPointer).take n ∧
    di2 = ⟨di.Data, di.IndexPointer + n⟩ := by
  unfold DataInput.Read at h
  split at h
  · simp at h
  · rename_i hc
    simp only [Prod.mk.injEq, Option.some.injEq] at h
    obtain ⟨h1, h2⟩ := h
    refine ⟨by omega, h1.symm, h2.symm⟩

theorem Read_of_le {di : DataInput} {n : Nat}
    (h : di.IndexPointer + n ≤ di.Data.length) :
    di.Read n = (some ((di.Data.drop di.IndexPointer).take n),
                 ⟨di.Data, di.IndexPointer + n⟩) := by
  unfold DataInput.Read
  split <;> rename_i hc
  · omega
  · rfl

theorem ReadUnsignedShort_ok_state {di : DataInput} {v : Nat} {di2 : DataInput}
    (h : di.ReadUnsignedShort = .ok (v, di2)) :
    di2 = ⟨di.Data, di.IndexPointer + 2⟩ := by
  unfold DataInput.ReadUnsignedShort at h
  rcases hr : di.Read 2 with ⟨o, d⟩
  rw [hr] at h
  cases o with
  | none => simp at h
  | some bs =>
    simp only [Except.ok.injEq, Prod.mk.injEq] at h
    exact h.2 ▸ (Read_ok_elim hr).2.2

theorem ReadUTF_ok_data {di : DataInput} {s : List Nat} {di2 : DataInput}
    (h : di.ReadUTF = .ok (s, di2)) : di2.Data = di.Data := by
  unfold DataInput.ReadUTF at h
  rcases hs : di.ReadUnsignedShort with e | ⟨lon, dmid⟩
  · rw [hs] at h; simp at h
  · rw [hs] at h
    dsimp only at h
    have hmid : dmid.Data = di.Data := by
      rw [ReadUnsignedShort_ok_state hs]
    rcases hr : dmid.Read lon with ⟨o, d⟩
    rw [hr] at h
    have hd : d.Data = dmid.Data := by
      have := Read_snd_data dmid lon
      rw [hr] at this
      exact this
    cases o <;> simp only [Except.ok.injEq, Prod.mk.injEq] at h <;>
      rw [← h.2, hd, hmid]

/-! ### Claim theorems about the cursor -/

/-- C5: `DataInput.Read` fails (returns nil, leaving the cursor in place)
exactly when fewer than n bytes remain past the offset; otherwise it returns
exactly the next n bytes of the buffer and advances the offset by n. -/
theorem c5_read_bounds : ∀ (di : DataInput) (n : Nat),
    ((di.Read n).1 = none ↔ di.Data.length < di.IndexPointer + n)
    ∧ ((di.Read n).1 = none → (di.Read n).2 = di)
    ∧ (∀ bs di2, di.Read n = (some bs, di2) →
        bs = (di.Data.drop di.IndexPointer).take n ∧ bs.length = n
        ∧ di2.Data = di.Data ∧ di2.IndexPointer = di.IndexPointer + n) := by
  intro di n
  refine ⟨Read_fst_none_iff di n, fun h => Read_none_state h, ?_⟩
  intro bs di2 h
  obtain ⟨hle, hbs, hdi2⟩ := Read_ok_elim h
  refine ⟨hbs, ?_, by rw [hdi2], by rw [hdi2]⟩
  rw [hbs]
  simp
  omega

/-- Witness for C5 at a concrete cursor: 2 bytes requested, 3 available. -/
theorem c5_read_bounds_witness :
    ¬((DataInput.mk [1, 2, 3] 0).Read 2).1 = none
    ∧ [1, 2] = (([1, 2, 3].drop 0).take 2 : List Nat)
    ∧ ([1, 2] : List Nat).length = 2
    ∧ (DataInput.mk [1, 2, 3] 2).Data = [1, 2, 3]
    ∧ (DataInput.mk [1, 2, 3] 2).IndexPointer = 0 + 2 := by
  have h := c5_read_bounds (DataInput.mk [1, 2, 3] 0) 2
  refine ⟨fun hn => by simpa using (h.1.mp hn), ?_⟩
  have := h.2.2 [1, 2] (DataInput.mk [1, 2, 3] 2) (by rfl)
  exact this

theorem headD_take_drop (l : List Nat) (i : Nat) :
    ((l.drop i).take 1).headD 0 = l.getD i 0 := by
  rcases hd : l.drop i with _ | ⟨a, as⟩
  · have hle : l.length ≤ i := by
      have := congrArg List.length hd
      simp at this
      omega
    simp [List.getD, List.getElem?_eq_none hle]
  · have : l[i]? = some a := by
      have h0 : (l.drop i)[0]? = some a := by rw [hd]; simp
      rw [List.getElem?_drop] at h0
      simpa using h0
    simp [List.getD, this]

/-- C7: `ReadBoolean` reads exactly one byte (the offset advances by one) and
yields true iff that byte equals 1; the byte 0x02 decodes to false. -/
theorem c7_readBoolean_exact : ∀ di : DataInput,
    (di.IndexPointer < di.Data.length →
      di.ReadBoolean = .ok (di.Data.getD di.IndexPointer 0 == 1,
        ⟨di.Data, di.IndexPointer + 1⟩))
    ∧ DataInput.ReadBoolean ⟨[2], 0⟩ = .ok (false, ⟨[2], 1⟩) := by
  intro di
  refine ⟨fun h => ?_, rfl⟩
  unfold DataInput.ReadBoolean
  rw [Read_of_le (by omega)]
  dsimp only
  rw [headD_take_drop]

/-- Witness for C7: byte 7 at offset 0 is not 1, hence false, offset 1. -/
theorem c7_readBoolean_exact_witness :
    DataInput.ReadBoolean ⟨[7, 9], 0⟩ = .ok (([7, 9].getD 0 0 == 1 : Bool), ⟨[7, 9], 1⟩) :=
  (c7_readBoolean_exact ⟨[7, 9], 0⟩).1 (by simp)

/-- C9: when the translation-string reader returns, the cursor offset equals
its value before the call (and the buffer is unchanged); the string returned
is the length-prefixed string read at the storage location. -/
theorem c9_readString_restores_cursor : ∀ (di : DataInput) (location : Nat)
    (s : List Nat) (di2 : DataInput),
    readString di location = .ok (s, di2) →
    di2.IndexPointer = di.IndexPointer ∧ di2.Data = di.Data
    ∧ ∃ dmid, (di.SetPointer location).ReadUTF = .ok (s, dmid) := by
  intro di location s di2 h
  unfold readString at h
  rcases hu : (di.SetPointer location).ReadUTF with e | ⟨str, dmid⟩
  · rw [hu] at h; simp at h
  · rw [hu] at h
    dsimp only at h
    simp only [Except.ok.injEq, Prod.mk.injEq] at h
    obtain ⟨hstr, hdi2⟩ := h
    have hdata : dmid.Data = di.Data := by
      have := ReadUTF_ok_data hu
      simpa [DataInput.SetPointer] using this
    subst hstr
    refine ⟨?_, ?_, ⟨dmid, rfl⟩⟩
    · rw [← hdi2]; rfl
    · rw [← hdi2]
      exact hdata

/-- Witness for C9: jump from offset 1 to the string at offset 3 and back. -/
theorem c9_readString_restores_cursor_witness :
    (DataInput.mk [9, 9, 9, 0, 2, 65, 66] 1).IndexPointer = 1
    ∧ (DataInput.mk [9, 9, 9, 0, 2, 65, 66] 1).Data = [9, 9, 9, 0, 2, 65, 66]
    ∧ ∃ dmid, ((DataInput.mk [9, 9, 9, 0, 2, 65, 66] 1).SetPointer 3).ReadUTF
        = .ok ([65, 66], dmid) := by
  have h := c9_readString_restores_cursor (DataInput.mk [9, 9, 9, 0, 2, 65, 66] 1) 3
    [65, 66] (DataInput.mk [9, 9, 9, 0, 2, 65, 66] 1) (by rfl)
  exact h

/-! ### Field-type tag case analysis -/

theorem ftype_pos_cases {tg : Int} (h : 0 < tg) :
    (tg == Integer) = false ∧ (tg == Boolean) = false ∧ (tg == StringT) = false
    ∧ (tg == Number) = false ∧ (tg == I18n) = false
    ∧ (tg == UnsignedInteger) = false ∧ (tg == Vector) = false := by
  simp only [Integer, Boolean, StringT, Number, I18n, UnsignedInteger, Vector,
    beq_eq_false_iff_ne, ne_eq]
  omega

/-! ### C6: unresolved vector elements become nil and decoding continues -/

/-- C6: when decoding an element of a vector whose element type is a custom
class reference (a positive tag), if the 4-byte runtime class id read from
the stream is absent from the class table, that element is recorded as the
absent value (`VNull`) and the loop continues decoding the remaining `n`
elements at the advanced cursor, with the enclosing decode not failed. -/
theorem c6_vector_unresolved_element : ∀ (fuel : Nat) (di di2 : DataInput)
    (t : List (Int × Class)) (nm nm2 : List Nat) (tg : Int) (cid : Int) (n : Nat),
    0 < tg →
    di.ReadInt = .ok (cid, di2) → alLookup t cid = none →
    readVectorElems (fuel + 1) di t (.mk nm Vector (some (.mk nm2 tg none))) (n + 1)
      = (readVectorElems fuel di2 t (.mk nm Vector (some (.mk nm2 tg none))) n).map
          (fun p => (Value.VNull :: p.1, p.2)) := by
  intro fuel di di2 t nm nm2 tg cid n htg hread hlook
  obtain ⟨e1, e2, e3, e4, e5, e6, e7⟩ := ftype_pos_cases htg
  conv_lhs => rw [readVectorElems]
  simp only [GameDataField.subType]
  cases fuel with
  | zero => rfl
  | succ fl =>
    have helem : readVectorElem (fl + 1) di t (.mk nm2 tg none) = .ok (.VNull, di2) := by
      unfold readVectorElem
      simp only [GameDataField.ftype, e1, e2, e3, e4, e5, e6, e7, if_false,
        Bool.false_eq_true]
      rw [hread]
      simp only [hlook]
    rw [helem]
    dsimp only
    rcases hrest : readVectorElems (fl + 1) di2 t
        (.mk nm Vector (some (.mk nm2 tg none))) n with e | ⟨vs, di3⟩ <;> rfl

/-- Witness for C6: one unresolved element (id 7, empty table) followed by
one remaining Integer-free element count of zero. -/
theorem c6_vector_unresolved_element_witness :
    readVectorElems 4 (DataInput.mk [0, 0, 0, 7] 0) []
        (.mk [118] Vector (some (.mk [101] (5 : Int) none))) 1
      = (readVectorElems 3 (DataInput.mk [0, 0, 0, 7] 4) []
          (.mk [118] Vector (some (.mk [101] (5 : Int) none))) 0).map
          (fun p => (Value.VNull :: p.1, p.2)) :=
  c6_vector_unresolved_element 3 (DataInput.mk [0, 0, 0, 7] 0)
    (DataInput.mk [0, 0, 0, 7] 4) [] [118] [101] 5 7 0 (by norm_num) (by rfl) (by rfl)

/-! ### C2: NaN normalization -/

/-- A vector-of-Number field descriptor used in the C2 counterexample. -/
def nanVecField : GameDataField := .mk [118] Vector (some (.mk [101] Number none))

/-- The 64-bit pattern 0x7FF8000000000000: a quiet IEEE-754 NaN. -/
def nanBits : Nat := 9221120237041090560

/-- C2 counterexample: a Number-typed vector element whose 8 bytes encode NaN
decodes to a NaN-bearing `VNumber`, not to the absent value — the NaN
normalization of scalar Number fields is not applied inside vectors. -/
theorem c2_vector_nan_counterexample :
    readVector 10 (DataInput.mk [0, 0, 0, 1, 127, 248, 0, 0, 0, 0, 0, 0] 0) [] nanVecField
      = .ok (.VList [.VNumber nanBits],
             DataInput.mk [0, 0, 0, 1, 127, 248, 0, 0, 0, 0, 0, 0] 12)
    ∧ isNaN64 nanBits = true := by
  constructor
  · rfl
  · rfl

/-- C2 amended: a scalar field of type Number whose 8 bytes encode NaN
decodes to the explicit absent value, but a Number-typed vector element is
decoded without the NaN normalization: the raw (possibly NaN) double is kept. -/
theorem c2_nan_normalization_amended : ∀ (fuel : Nat) (di di2 : DataInput)
    (t : List (Int × Class)) (nm nm2 : List Nat) (bits : Nat),
    di.ReadDouble = .ok (bits, di2) → isNaN64 bits = true →
    readFieldValue (fuel + 1) di t (.mk nm Number none) = .ok (.VNull, di2)
    ∧ readVectorElem (fuel + 1) di t (.mk nm2 Number none) = .ok (.VNumber bits, di2) := by
  intro fuel di di2 t nm nm2 bits hread hnan
  constructor
  · unfold readFieldValue
    simp only [GameDataField.ftype]
    norm_num [Integer, Boolean, StringT, Number]
    rw [hread]
    simp [hnan]
  · unfold readVectorElem
    simp only [GameDataField.ftype]
    norm_num [Integer, Boolean, StringT, Number]
    rw [hread]
    rfl

/-- Witness for C2 (amended) at the concrete NaN byte pattern. -/
theorem c2_nan_normalization_amended_witness :
    readFieldValue 1 (DataInput.mk [127, 248, 0, 0, 0, 0, 0, 0] 0) [] (.mk [110] Number none)
      = .ok (.VNull, DataInput.mk [127, 248, 0, 0, 0, 0, 0, 0] 8)
    ∧ readVectorElem 1 (DataInput.mk [127, 248, 0, 0, 0, 0, 0, 0] 0) [] (.mk [109] Number none)
      = .ok (.VNumber nanBits, DataInput.mk [127, 248, 0, 0, 0, 0, 0, 0] 8) :=
  c2_nan_normalization_amended 0 (DataInput.mk [127, 248, 0, 0, 0, 0, 0, 0] 0)
    (DataInput.mk [127, 248, 0, 0, 0, 0, 0, 0] 8) [] [110] [109] nanBits
    (by rfl) (by rfl)

/-! ### C3: unresolved scalar custom-class fields -/

/-- C3 counterexample: a scalar field with static tag 42, stream class id 99,
and an empty class table — neither id resolves, yet the decode returns
`.ok` with an object (only the discriminator, from the zero-value class),
not a fatal error. -/
theorem c3_unresolved_scalar_counterexample :
    readFieldValue 10 (DataInput.mk [0, 0, 0, 99] 0) [] (.mk [120] 42 none)
      = .ok (.VObject [(classTypeKey, .VString [])], DataInput.mk [0, 0, 0, 99] 4) := by
  rfl

/-- C3 amended: for a scalar custom-class field the decoder reads a 4-byte
runtime class id, falls back to the static tag when that id is not in the
table, and when the fallback id is unresolved too it proceeds with Go's
zero-value class, successfully producing an object that holds only the
`ClassType_` discriminator (with an empty class name); no fatal error. -/
theorem c3_unresolved_scalar_amended : ∀ (fuel : Nat) (di di2 : DataInput)
    (t : List (Int × Class)) (nm : List Nat) (tg cid : Int),
    0 < tg →
    di.ReadInt = .ok (cid, di2) →
    alLookup t cid = none → alLookup t tg = none →
    readFieldValue (fuel + 3) di t (.mk nm tg none)
      = .ok (.VObject [(classTypeKey, .VString [])], di2) := by
  intro fuel di di2 t nm tg cid htg hread hcid htg2
  obtain ⟨e1, e2, e3, e4, e5, e6, e7⟩ := ftype_pos_cases htg
  unfold readFieldValue
  simp only [GameDataField.ftype, e1, e2, e3, e4, e5, e6, e7, if_false,
    Bool.false_eq_true]
  rw [hread]
  dsimp only
  simp only [hcid, Option.isSome_none, Bool.false_eq_true, if_false, htg2,
    Option.getD_none]
  show readObject (fuel + 2) di2 t emptyClass = _
  unfold readObject
  show (match readFieldsLoop (fuel + 1) di2 t [] [(classTypeKey, Value.VString [])] with
    | Except.error e => Except.error e
    | Except.ok (obj, d) => Except.ok (Value.VObject obj, d)) = _
  rfl

/-- Witness for C3 (amended) at the concrete counterexample input. -/
theorem c3_unresolved_scalar_amended_witness :
    readFieldValue 3 (DataInput.mk [0, 0, 0, 99] 0) [] (.mk [120] 42 none)
      = .ok (.VObject [(classTypeKey, .VString [])], DataInput.mk [0, 0, 0, 99] 4) :=
  c3_unresolved_scalar_amended 0 (DataInput.mk [0, 0, 0, 99] 0)
    (DataInput.mk [0, 0, 0, 99] 4) [] [120] 42 99 (by norm_num) (by rfl)
    (by rfl) (by rfl)

/-! ### C4: zero type tags kill the whole process -/

/-- A minimal well-formed container file: magic, index pointer 7, empty index
block, zero classes. -/
def goodFile : List Nat := [68, 50, 79, 0, 0, 0, 7, 0, 0, 0, 0, 0, 0, 0, 0]

/-- A container file whose single class has one field with type tag 0,
reaching `log.Fatal` in `readField`. -/
def zeroTagFile : List Nat :=
  [68, 50, 79, 0, 0, 0, 7, 0, 0, 0, 0, 0, 0, 0, 1, 0, 0, 0, 5,
   0, 1, 65, 0, 1, 112, 0, 0, 0, 1, 0, 1, 120, 0, 0, 0, 0]

/-- C4 counterexample: a batch whose first file contains a zero type tag ends
with the process-terminating error, even though the second file of the batch
is well formed on its own — the batch does not proceed to the next file. -/
theorem c4_zero_tag_counterexample :
    processCommonFolder [zeroTagFile, goodFile] 20 = .error .fatalStop
    ∧ ProcessD2oFile goodFile 20 = .ok { Classes := [], Objects := [] }
    ∧ ProcessD2oFile zeroTagFile 20 = .error .fatalStop := by
  refine ⟨?_, ?_, ?_⟩ <;> rfl

/-- C4 amended: a zero type tag makes schema decoding fail with the fatal
(`log.Fatal`) error, and that error terminates the whole batch: the driver
skips to the next file only on error values (`softErr`), while a fatal error
propagates out of `processCommonFolder`, leaving later files unprocessed. -/
theorem c4_zero_tag_amended :
    (∀ (fuel : Nat) (di di2 di3 : DataInput) (nm : List Nat),
      di.ReadUTF = .ok (nm, di2) → di2.ReadInt = .ok (0, di3) →
      readField (fuel + 1) di = .error .fatalStop)
    ∧ (∀ (f : List Nat) (rest : List (List Nat)) (fuel : Nat),
        ProcessD2oFile f fuel = .error .fatalStop →
        processCommonFolder (f :: rest) fuel = .error .fatalStop)
    ∧ (∀ (f : List Nat) (rest : List (List Nat)) (fuel : Nat),
        ProcessD2oFile f fuel = .error .softErr →
        processCommonFolder (f :: rest) fuel = processCommonFolder rest fuel) := by
  refine ⟨?_, ?_, ?_⟩
  · intro fuel di di2 di3 nm hutf hint
    unfold readField
    rw [hutf]
    dsimp only
    rw [hint]
    rfl
  · intro f rest fuel h
    conv_lhs => rw [processCommonFolder]
    rw [h]
  · intro f rest fuel h
    conv_lhs => rw [processCommonFolder]
    rw [h]

/-- Witness for C4 (amended): the zero-tag bytes, the zero-tag file heading a
batch, and a bad-header file being skipped. -/
theorem c4_zero_tag_amended_witness :
    readField 1 (DataInput.mk [0, 1, 120, 0, 0, 0, 0] 0) = .error .fatalStop
    ∧ processCommonFolder [zeroTagFile] 20 = .error .fatalStop
    ∧ processCommonFolder [[9, 9, 9], goodFile] 20 = processCommonFolder [goodFile] 20 := by
  refine ⟨?_, ?_, ?_⟩
  · exact c4_zero_tag_amended.1 0 (DataInput.mk [0, 1, 120, 0, 0, 0, 0] 0)
      (DataInput.mk [0, 1, 120, 0, 0, 0, 0] 3) (DataInput.mk [0, 1, 120, 0, 0, 0, 0] 7)
      [120] (by rfl) (by rfl)
  · exact c4_zero_tag_amended.2.1 zeroTagFile [] 20 (by rfl)
  · exact c4_zero_tag_amended.2.2 [9, 9, 9] [goodFile] 20 (by rfl)

/-! ### C8: the variable-length integer -/

/-- The byte i positions past the cursor (0 when out of range). -/
def byteAt (di : DataInput) (i : Nat) : Nat := di.Data.getD (di.IndexPointer + i) 0

/-- The value of a varint terminating at its (k+1)-th byte: 7 payload bits
per byte, least-significant first. -/
def varIntValue (di : DataInput) (k : Nat) : Nat :=
  (List.range (k + 1)).foldl (fun acc i => acc ||| ((byteAt di i &&& 127) <<< (7 * i))) 0

theorem ReadUnsignedByte_of_lt {di : DataInput} (h : di.IndexPointer < di.Data.length) :
    di.ReadUnsignedByte = .ok (di.Data.getD di.IndexPointer 0,
      ⟨di.Data, di.IndexPointer + 1⟩) := by
  unfold DataInput.ReadUnsignedByte
  rw [Read_of_le (by omega)]
  dsimp only
  rw [headD_take_drop]

theorem readVarIntLoop_step (data : List Nat) (pos j i ans : Nat) (hi : i < 32)
    (h : pos + j < data.length) :
    readVarIntLoop i ans ⟨data, pos + j⟩ =
      if data.getD (pos + j) 0 &&& 128 == 0 then
        .ok (ans ||| ((data.getD (pos + j) 0 &&& 127) <<< i), ⟨data, pos + (j + 1)⟩)
      else readVarIntLoop (i + 7) (ans ||| ((data.getD (pos + j) 0 &&& 127) <<< i))
        ⟨data, pos + (j + 1)⟩ := by
  rw [readVarIntLoop]
  rw [dif_pos hi]
  rw [@ReadUnsignedByte_of_lt ⟨data, pos + j⟩ (by simpa using h)]
  dsimp only
  rw [show pos + j + 1 = pos + (j + 1) by omega]

theorem readVarInt_success (di : DataInput)
    (h5 : di.IndexPointer + 5 ≤ di.Data.length) :
    ∀ k, k < 5 → (∀ i, i < k → byteAt di i &&& 128 ≠ 0) → byteAt di k &&& 128 = 0 →
    di.ReadVarInt = .ok (varIntValue di k, ⟨di.Data, di.IndexPointer + (k + 1)⟩) := by
  obtain ⟨data, pos⟩ := di
  simp only [byteAt] at *
  intro k hk hset hclear
  unfold DataInput.ReadVarInt
  show readVarIntLoop 0 0 ⟨data, pos + 0⟩ = _
  interval_cases k
  · rw [readVarIntLoop_step data pos 0 0 0 (by norm_num) (by omega),
      if_pos (by simpa using hclear)]
    rfl
  · rw [readVarIntLoop_step data pos 0 0 0 (by norm_num) (by omega),
      if_neg (by simpa using hset 0 (by norm_num)),
      readVarIntLoop_step data pos 1 7 _ (by norm_num) (by omega),
      if_pos (by simpa using hclear)]
    rfl
  · rw [readVarIntLoop_step data pos 0 0 0 (by norm_num) (by omega),
      if_neg (by simpa using hset 0 (by norm_num)),
      readVarIntLoop_step data pos 1 7 _ (by norm_num) (by omega),
      if_neg (by simpa using hset 1 (by norm_num)),
      readVarIntLoop_step data pos 2 14 _ (by norm_num) (by omega),
      if_pos (by simpa using hclear)]
    rfl
  · rw [readVarIntLoop_step data pos 0 0 0 (by norm_num) (by omega),
      if_neg (by simpa using hset 0 (by norm_num)),
      readVarIntLoop_step data pos 1 7 _ (by norm_num) (by omega),
      if_neg (by simpa using hset 1 (by norm_num)),
      readVarIntLoop_step data pos 2 14 _ (by norm_num) (by omega),
      if_neg (by simpa using hset 2 (by norm_num)),
      readVarIntLoop_step data pos 3 21 _ (by norm_num) (by omega),
      if_pos (by simpa using hclear)]
    rfl
  · rw [readVarIntLoop_step data pos 0 0 0 (by norm_num) (by omega),
      if_neg (by simpa using hset 0 (by norm_num)),
      readVarIntLoop_step data pos 1 7 _ (by norm_num) (by omega),
      if_neg (by simpa using hset 1 (by norm_num)),
      readVarIntLoop_step data pos 2 14 _ (by norm_num) (by omega),
      if_neg (by simpa using hset 2 (by norm_num)),
      readVarIntLoop_step data pos 3 21 _ (by norm_num) (by omega),
      if_neg (by simpa using hset 3 (by norm_num)),
      readVarIntLoop_step data pos 4 28 _ (by norm_num) (by omega),
      if_pos (by simpa using hclear)]
    rfl

theorem readVarInt_allset_error (di : DataInput)
    (h5 : di.IndexPointer + 5 ≤ di.Data.length)
    (hall : ∀ i, i < 5 → byteAt di i &&& 128 ≠ 0) :
    di.ReadVarInt = .error .fatalStop := by
  obtain ⟨data, pos⟩ := di
  simp only [byteAt] at *
  unfold DataInput.ReadVarInt
  show readVarIntLoop 0 0 ⟨data, pos + 0⟩ = _
  rw [readVarIntLoop_step data pos 0 0 0 (by norm_num) (by omega),
    if_neg (by simpa using hall 0 (by norm_num)),
    readVarIntLoop_step data pos 1 7 _ (by norm_num) (by omega),
    if_neg (by simpa using hall 1 (by norm_num)),
    readVarIntLoop_step data pos 2 14 _ (by norm_num) (by omega),
    if_neg (by simpa using hall 2 (by norm_num)),
    readVarIntLoop_step data pos 3 21 _ (by norm_num) (by omega),
    if_neg (by simpa using hall 3 (by norm_num)),
    readVarIntLoop_step data pos 4 28 _ (by norm_num) (by omega),
    if_neg (by simpa using hall 4 (by norm_num))]
  rw [readVarIntLoop]
  rw [dif_neg (by norm_num)]

/-- C8: with at least 5 bytes available, `ReadVarInt` fails fatally exactly
when all of the first 5 bytes have the continuation bit (0x80) set; and when
the first clear-continuation byte is byte k (k < 5), it consumes exactly k+1
bytes (at most 5) and returns the little-endian base-128 value of the payload
bits accumulated so far. -/
theorem c8_varint_bounded : ∀ di : DataInput,
    di.IndexPointer + 5 ≤ di.Data.length →
    (di.ReadVarInt = .error .fatalStop ↔ ∀ i, i < 5 → byteAt di i &&& 128 ≠ 0)
    ∧ (∀ k, k < 5 → (∀ i, i < k → byteAt di i &&& 128 ≠ 0) →
        byteAt di k &&& 128 = 0 →
        di.ReadVarInt = .ok (varIntValue di k, ⟨di.Data, di.IndexPointer + (k + 1)⟩)) := by
  intro di h5
  refine ⟨⟨?_, readVarInt_allset_error di h5⟩, readVarInt_success di h5⟩
  intro herr i hi
  by_cases c0 : byteAt di 0 &&& 128 = 0
  · rw [readVarInt_success di h5 0 (by norm_num)
      (fun j hj => absurd hj (Nat.not_lt_zero j)) c0] at herr
    simp at herr
  by_cases c1 : byteAt di 1 &&& 128 = 0
  · rw [readVarInt_success di h5 1 (by norm_num)
      (fun j hj => by interval_cases j; exact c0) c1] at herr
    simp at herr
  by_cases c2 : byteAt di 2 &&& 128 = 0
  · rw [readVarInt_success di h5 2 (by norm_num)
      (fun j hj => by interval_cases j <;> assumption) c2] at herr
    simp at herr
  by_cases c3 : byteAt di 3 &&& 128 = 0
  · rw [readVarInt_success di h5 3 (by norm_num)
      (fun j hj => by interval_cases j <;> assumption) c3] at herr
    simp at herr
  by_cases c4 : byteAt di 4 &&& 128 = 0
  · rw [readVarInt_success di h5 4 (by norm_num)
      (fun j hj => by interval_cases j <;> assumption) c4] at herr
    simp at herr
  interval_cases i <;> assumption

/-- Witness for C8: bytes 0x85 0x01 terminate at the second byte with value
5 + (1 <<< 7) = 133, consuming 2 bytes. -/
theorem c8_varint_bounded_witness :
    DataInput.ReadVarInt ⟨[133, 1, 0, 0, 0], 0⟩
      = .ok (varIntValue ⟨[133, 1, 0, 0, 0], 0⟩ 1, ⟨[133, 1, 0, 0, 0], 0 + (1 + 1)⟩) :=
  (c8_varint_bounded ⟨[133, 1, 0, 0, 0], 0⟩ (by norm_num)).2 1 (by norm_num)
    (fun i hi => by interval_cases i; decide) (by decide)

/-! ### State lemmas for the 4-byte and 8-byte readers -/

theorem ReadInt_ok_state {di : DataInput} {v : Int} {di2 : DataInput}
    (h : di.ReadInt = .ok (v, di2)) : di2 = ⟨di.Data, di.IndexPointer + 4⟩ := by
  unfold DataInput.ReadInt at h
  rcases hr : di.Read 4 with ⟨o, d⟩
  rw [hr] at h
  cases o with
  | none => simp at h
  | some bs =>
    simp only [Except.ok.injEq, Prod.mk.injEq] at h
    exact h.2 ▸ (Read_ok_elim hr).2.2

theorem ReadUint_ok_state {di : DataInput} {v : Nat} {di2 : DataInput}
    (h : di.ReadUint = .ok (v, di2)) : di2 = ⟨di.Data, di.IndexPointer + 4⟩ := by
  unfold DataInput.ReadUint at h
  rcases hr : di.Read 4 with ⟨o, d⟩
  rw [hr] at h
  cases o with
  | none => simp at h
  | some bs =>
    simp only [Except.ok.injEq, Prod.mk.injEq] at h
    exact h.2 ▸ (Read_ok_elim hr).2.2

theorem ReadDouble_ok_state {di : DataInput} {v : Nat} {di2 : DataInput}
    (h : di.ReadDouble = .ok (v, di2)) : di2 = ⟨di.Data, di.IndexPointer + 8⟩ := by
  unfold DataInput.ReadDouble at h
  rcases hr : di.Read 8 with ⟨o, d⟩
  rw [hr] at h
  cases o with
  | none => simp at h
  | some bs =>
    simp only [Except.ok.injEq, Prod.mk.injEq] at h
    exact h.2 ▸ (Read_ok_elim hr).2.2

theorem ReadBoolean_ok_state {di : DataInput} {v : Bool} {di2 : DataInput}
    (h : di.ReadBoolean = .ok (v, di2)) : di2 = ⟨di.Data, di.IndexPointer + 1⟩ := by
  unfold DataInput.ReadBoolean at h
  rcases hr : di.Read 1 with ⟨o, d⟩
  rw [hr] at h
  cases o with
  | none => simp at h
  | some bs =>
    simp only [Except.ok.injEq, Prod.mk.injEq] at h
    exact h.2 ▸ (Read_ok_elim hr).2.2

/-! ### The object decoder only advances the cursor: the buffer is fixed -/

theorem decode_preserves_data : ∀ fuel : Nat,
    (∀ di t c r, readObject fuel di t c = .ok r → r.2.Data = di.Data)
    ∧ (∀ di t fs acc r, readFieldsLoop fuel di t fs acc = .ok r → r.2.Data = di.Data)
    ∧ (∀ di t f r, readFieldValue fuel di t f = .ok r → r.2.Data = di.Data)
    ∧ (∀ di t f r, readVector fuel di t f = .ok r → r.2.Data = di.Data)
    ∧ (∀ di t f n r, readVectorElems fuel di t f n = .ok r → r.2.Data = di.Data)
    ∧ (∀ di t sub r, readVectorElem fuel di t sub = .ok r → r.2.Data = di.Data) := by
  intro fuel
  induction fuel with
  | zero =>
    refine ⟨?_, ?_, ?_, ?_, ?_, ?_⟩
    · intro di t c r h; rw [readObject] at h; simp at h
    · intro di t fs acc r h; rw [readFieldsLoop] at h; simp at h
    · intro di t f r h; rw [readFieldValue] at h; simp at h
    · intro di t f r h; rw [readVector] at h; simp at h
    · intro di t f n r h; rw [readVectorElems] at h; simp at h
    · intro di t sub r h; rw [readVectorElem] at h; simp at h
  | succ fl ih =>
    obtain ⟨ihO, ihL, ihF, ihV, ihE, ihX⟩ := ih
    refine ⟨?_, ?_, ?_, ?_, ?_, ?_⟩
    · -- readObject
      intro di t c r h
      rw [readObject] at h
      rcases hL : readFieldsLoop fl di t c.Fields
          [(classTypeKey, .VString c.PackageClass)] with e | ⟨obj, di2⟩ <;> rw [hL] at h
      · simp at h
      · simp only [Except.ok.injEq] at h
        rw [← h]
        exact ihL _ _ _ _ _ hL
    · -- readFieldsLoop
      intro di t fs acc r h
      cases fs with
      | nil =>
        rw [readFieldsLoop] at h
        simp only [Except.ok.injEq] at h
        rw [← h]
      | cons f fs2 =>
        rw [readFieldsLoop] at h
        rcases hF : readFieldValue fl di t f with e | ⟨v, di2⟩ <;> rw [hF] at h
        · simp at h
        · dsimp only at h
          have h2 := ihL _ _ _ _ _ h
          rw [h2, ihF _ _ _ _ hF]
    · -- readFieldValue
      intro di t f r h
      rw [readFieldValue] at h
      split_ifs at h
      · rcases hi : di.ReadInt with e | ⟨v, d2⟩ <;> rw [hi] at h <;>
          simp only [Except.map, Except.ok.injEq] at h
        · exact absurd h (by simp)
        · rw [← h, ReadInt_ok_state hi]
      · rcases hi : di.ReadBoolean with e | ⟨v, d2⟩ <;> rw [hi] at h <;>
          simp only [Except.map, Except.ok.injEq] at h
        · exact absurd h (by simp)
        · rw [← h, ReadBoolean_ok_state hi]
      · rcases hi : di.ReadUTF with e | ⟨v, d2⟩ <;> rw [hi] at h <;>
          simp only [Except.map, Except.ok.injEq] at h
        · exact absurd h (by simp)
        · rw [← h]
          exact ReadUTF_ok_data hi
      · rcases hi : di.ReadDouble with e | ⟨v, d2⟩ <;> rw [hi] at h
        · simp at h
        · dsimp only at h
          split_ifs at h <;> simp only [Except.ok.injEq] at h <;>
            rw [← h, ReadDouble_ok_state hi]
      · rcases hi : di.ReadInt with e | ⟨v, d2⟩ <;> rw [hi] at h <;>
          simp only [Except.map, Except.ok.injEq] at h
        · exact absurd h (by simp)
        · rw [← h, ReadInt_ok_state hi]
      · rcases hi : di.ReadUint with e | ⟨v, d2⟩ <;> rw [hi] at h <;>
          simp only [Except.map, Except.ok.injEq] at h
        · exact absurd h (by simp)
        · rw [← h, ReadUint_ok_state hi]
      · exact ihV _ _ _ _ h
      · rcases hi : di.ReadInt with e | ⟨v, d2⟩ <;> rw [hi] at h
        · simp at h
        · dsimp only at h
          rw [ihO _ _ _ _ h, ReadInt_ok_state hi]
    · -- readVector
      intro di t f r h
      rw [readVector] at h
      rcases hi : di.ReadInt with e | ⟨v, d2⟩ <;> rw [hi] at h
      · simp at h
      · dsimp only at h
        rcases hE : readVectorElems fl d2 t f v.toNat with e | ⟨vs, di3⟩ <;> rw [hE] at h
        · simp at h
        · simp only [Except.ok.injEq] at h
          rw [← h]
          have := ihE _ _ _ _ _ hE
          rw [this, ReadInt_ok_state hi]
    · -- readVectorElems
      intro di t f n r h
      cases n with
      | zero =>
        rw [readVectorElems] at h
        simp only [Except.ok.injEq] at h
        rw [← h]
      | succ n2 =>
        rw [readVectorElems] at h
        rcases hs : f.subType with _ | sub <;> rw [hs] at h
        · simp at h
        · dsimp only at h
          rcases hX : readVectorElem fl di t sub with e | ⟨v, di2⟩ <;> rw [hX] at h
          · simp at h
          · dsimp only at h
            rcases hE : readVectorElems fl di2 t f n2 with e | ⟨vs, di3⟩ <;> rw [hE] at h
            · simp at h
            · simp only [Except.ok.injEq] at h
              rw [← h]
              have := ihE _ _ _ _ _ hE
              rw [this, ihX _ _ _ _ hX]
    · -- readVectorElem
      intro di t sub r h
      rw [readVectorElem] at h
      split_ifs at h
      · rcases hi : di.ReadInt with e | ⟨v, d2⟩ <;> rw [hi] at h <;>
          simp only [Except.map, Except.ok.injEq] at h
        · exact absurd h (by simp)
        · rw [← h, ReadInt_ok_state hi]
      · rcases hi : di.ReadBoolean with e | ⟨v, d2⟩ <;> rw [hi] at h <;>
          simp only [Except.map, Except.ok.injEq] at h
        · exact absurd h (by simp)
        · rw [← h, ReadBoolean_ok_state hi]
      · rcases hi : di.ReadUTF with e | ⟨v, d2⟩ <;> rw [hi] at h <;>
          simp only [Except.map, Except.ok.injEq] at h
        · exact absurd h (by simp)
        · rw [← h]
          exact ReadUTF_ok_data hi
      · rcases hi : di.ReadDouble with e | ⟨v, d2⟩ <;> rw [hi] at h <;>
          simp only [Except.map, Except.ok.injEq] at h
        · exact absurd h (by simp)
        · rw [← h, ReadDouble_ok_state hi]
      · rcases hi : di.ReadInt with e | ⟨v, d2⟩ <;> rw [hi] at h <;>
          simp only [Except.map, Except.ok.injEq] at h
        · exact absurd h (by simp)
        · rw [← h, ReadInt_ok_state hi]
      · rcases hi : di.ReadUint with e | ⟨v, d2⟩ <;> rw [hi] at h <;>
          simp only [Except.map, Except.ok.injEq] at h
        · exact absurd h (by simp)
        · rw [← h, ReadUint_ok_state hi]
      · exact ihV _ _ _ _ h
      · rcases hi : di.ReadInt with e | ⟨v, d2⟩ <;> rw [hi] at h
        · simp at h
        · dsimp only at h
          rcases hl : alLookup t v with _ | c <;> rw [hl] at h
          · simp only [Except.ok.injEq] at h
            rw [← h, ReadInt_ok_state hi]
          · rw [ihO _ _ _ _ h, ReadInt_ok_state hi]

/-! ### The object loop decodes each offset independently, in list order -/

/-- Independent per-offset decoding: the object stored at each offset of the
list, in the order listed, each decoded from the same immutable buffer. -/
def decodeAllAt (data : List Nat) (t : List (Int × Class)) (fuel : Nat) :
    List Int → Except DErr (List Value)
  | [] => .ok []
  | off :: rest =>
    match readTopObject data t fuel off with
    | .error e => .error e
    | .ok v =>
      match decodeAllAt data t fuel rest with
      | .error e => .error e
      | .ok vs => .ok (v :: vs)

theorem readObjectsLoop_eq_decodeAllAt : ∀ (offs : List Int) (di : DataInput)
    (t : List (Int × Class)) (fuel : Nat),
    (readObjectsLoop offs di t fuel).map Prod.fst = decodeAllAt di.Data t fuel offs := by
  intro offs
  induction offs with
  | nil => intro di t fuel; rfl
  | cons off rest ih =>
    intro di t fuel
    rw [readObjectsLoop, decodeAllAt]
    show (match (DataInput.mk di.Data off.toNat).ReadInt with
      | .error e => Except.error e
      | .ok (classId, di2) =>
        match readObject fuel di2 t ((alLookup t classId).getD emptyClass) with
        | .error e => Except.error e
        | .ok (v, di3) =>
          match readObjectsLoop rest di3 t fuel with
          | .error e => Except.error e
          | .ok (vs, di4) => Except.ok (v :: vs, di4)).map Prod.fst = _
    rcases hi : (DataInput.mk di.Data off.toNat).ReadInt with e | ⟨classId, di2⟩ <;>
      unfold readTopObject <;> rw [hi]
    · rfl
    · dsimp only
      rcases hO : readObject fuel di2 t ((alLookup t classId).getD emptyClass) with
        e | ⟨v, di3⟩
      · rfl
      · dsimp only
        have hd3 : di3.Data = di.Data := by
          have h2 : di2.Data = di.Data := by
            rw [ReadInt_ok_state hi]
          have h3 := (decode_preserves_data fuel).1 _ _ _ _ hO
          rw [h3, h2]
        rw [show (Except.map Prod.fst (Except.ok (v, di3)) : Except DErr Value)
              = Except.ok v from rfl]
        rcases hrest : readObjectsLoop rest di3 t fuel with e | ⟨vs, di4⟩
        · have := ih di3 t fuel
          rw [hrest] at this
          rw [hd3] at this
          rw [← this]
          rfl
        · have := ih di3 t fuel
          rw [hrest] at this
          rw [hd3] at this
          rw [← this]
          rfl

theorem readObjectsLoop_length : ∀ (offs : List Int) (di : DataInput)
    (t : List (Int × Class)) (fuel : Nat) (vs : List Value) (st : DataInput),
    readObjectsLoop offs di t fuel = .ok (vs, st) → vs.length = offs.length := by
  intro offs
  induction offs with
  | nil =>
    intro di t fuel vs st h
    rw [readObjectsLoop] at h
    simp only [Except.ok.injEq, Prod.mk.injEq] at h
    rw [← h.1]
    rfl
  | cons off rest ih =>
    intro di t fuel vs st h
    rw [readObjectsLoop] at h
    rcases hi : (di.SetPointer off.toNat).ReadInt with e | ⟨classId, di2⟩ <;> rw [hi] at h
    · simp at h
    · dsimp only at h
      rcases hO : readObject fuel di2 t ((alLookup t classId).getD emptyClass) with
        e | ⟨v, di3⟩ <;> rw [hO] at h
      · simp at h
      · dsimp only at h
        rcases hrest : readObjectsLoop rest di3 t fuel with e | ⟨vs2, di4⟩ <;>
          rw [hrest] at h
        · simp at h
        · simp only [Except.ok.injEq, Prod.mk.injEq] at h
          rw [← h.1]
          simp [ih _ _ _ _ _ hrest]

/-! ### C1: objects are decoded in ascending offset order -/

/-- C1: `getSortedValues` produces the index table's offset values sorted in
ascending numeric order (a permutation of the map's values, ids ignored);
the object loop of `ProcessD2oFile` decodes, for that list in order, the
object stored at each offset; and on the spec's example index
`{5 -> 40, 2 -> 10, 9 -> 25}` the offsets come out as 10, 25, 40. -/
theorem c1_offset_sorted_order :
    (∀ m : List (Int × Int), (getSortedValues m).Sorted (· ≤ ·)
      ∧ (getSortedValues m).Perm (m.map Prod.snd))
    ∧ (∀ (offs : List Int) (di : DataInput) (t : List (Int × Class)) (fuel : Nat),
        (readObjectsLoop offs di t fuel).map Prod.fst = decodeAllAt di.Data t fuel offs)
    ∧ getSortedValues (buildIndexTable [(5, 40), (2, 10), (9, 25)]) = [10, 25, 40] := by
  refine ⟨fun m => ⟨?_, ?_⟩, readObjectsLoop_eq_decodeAllAt, by rfl⟩
  · exact List.sorted_insertionSort (· ≤ ·) (m.map Prod.snd)
  · exact List.perm_insertionSort (· ≤ ·) (m.map Prod.snd)

/-! ### The Go-map model: keys, membership, last-wins lookup -/

theorem keys_alInsert {α : Type} (m : List (Int × α)) (k : Int) (v : α) :
    (alInsert m k v).map Prod.fst
      = if k ∈ m.map Prod.fst then m.map Prod.fst else m.map Prod.fst ++ [k] := by
  unfold alInsert
  have hiff : (m.any fun p => p.1 == k) = true ↔ k ∈ m.map Prod.fst := by
    simp [List.any_eq_true]
  split <;> rename_i hc
  · rw [if_pos (hiff.mp hc)]
    rw [List.map_map]
    apply List.map_congr_left
    intro p hp
    by_cases hpk : p.1 = k
    · simp [hpk]
    · simp [hpk]
  · rw [if_neg (fun hk => hc (hiff.mpr hk))]
    simp

theorem nodup_keys_alInsert {α : Type} {m : List (Int × α)}
    (h : (m.map Prod.fst).Nodup) (k : Int) (v : α) :
    ((alInsert m k v).map Prod.fst).Nodup := by
  rw [keys_alInsert]
  split <;> rename_i hk
  · exact h
  · simp [List.nodup_append, h, hk]

theorem mem_keys_alInsert {α : Type} (m : List (Int × α)) (k j : Int) (v : α) :
    j ∈ (alInsert m k v).map Prod.fst ↔ j ∈ m.map Prod.fst ∨ j = k := by
  rw [keys_alInsert]
  split <;> rename_i hk
  · constructor
    · exact fun h => Or.inl h
    · rintro (h | h)
      · exact h
      · exact h ▸ hk
  · simp

theorem find?_map_subst {α : Type} (m : List (Int × α)) (k : Int) (v : α) (j : Int) :
    (m.map (fun p => if p.1 == k then (k, v) else p)).find? (fun p => p.1 == j)
      = if j = k then (m.find? (fun p => p.1 == k)).map (fun _ => (k, v))
        else m.find? (fun p => p.1 == j) := by
  by_cases hj : j = k
  · subst hj
    rw [if_pos rfl]
    induction m with
    | nil => rfl
    | cons p rest ih =>
      by_cases hp : p.1 = j
      · simp [List.find?_cons, hp, -List.find?_map]
      · simp [List.find?_cons, hp, -List.find?_map] at ih ⊢
        exact ih
  · rw [if_neg hj]
    induction m with
    | nil => rfl
    | cons p rest ih =>
      by_cases hp : p.1 = k
      · have hpj : ¬p.1 = j := by omega
        have hkj : ¬(k : Int) = j := by omega
        simp [List.find?_cons, hp, hpj, hkj, -List.find?_map] at ih ⊢
        exact ih
      · by_cases hpj : p.1 = j
        · simp [List.find?_cons, hp, hpj, hj, -List.find?_map]
        · simp [List.find?_cons, hp, hpj, -List.find?_map] at ih ⊢
          exact ih

theorem alLookup_alInsert {α : Type} (m : List (Int × α)) (k j : Int) (v : α) :
    alLookup (alInsert m k v) j = if j = k then some v else alLookup m j := by
  unfold alInsert alLookup
  split <;> rename_i hany
  · rw [find?_map_subst]
    by_cases hj : j = k
    · rw [if_pos hj, if_pos hj]
      rcases hf : m.find? (fun p => p.1 == k) with _ | q
      · rw [List.find?_eq_none] at hf
        obtain ⟨p, hp, hpk⟩ := List.any_eq_true.mp hany
        exact absurd hpk (by simpa using hf p hp)
      · rw [hf, Option.map_some', Option.map_some']
    · rw [if_neg hj, if_neg hj]
  · rw [List.find?_append]
    by_cases hj : j = k
    · rw [if_pos hj]
      subst hj
      have hnone : m.find? (fun p => p.1 == j) = none := by
        rw [List.find?_eq_none]
        intro p hp hc
        exact hany (List.any_eq_true.mpr ⟨p, hp, hc⟩)
      rw [hnone, Option.none_or]
      rw [List.find?_cons]
      have : ((j, v).1 == j) = true := by simp
      rw [this, Option.map_some']
    · rw [if_neg hj]
      have hsingle : List.find? (fun p => p.1 == j) [(k, v)] = none := by
        rw [List.find?_eq_none]
        intro p hp
        simp only [List.mem_singleton] at hp
        subst hp
        simp only [beq_iff_eq]
        omega
      rw [hsingle, Option.or_none]

theorem alLookup_buildAux : ∀ (entries : List (Int × Int)) (m : List (Int × Int))
    (k : Int),
    alLookup (entries.foldl (fun acc e => alInsert acc e.1 e.2) m) k
      = ((entries.reverse.find? (fun p => p.1 == k)).map Prod.snd).or (alLookup m k) := by
  intro entries
  induction entries with
  | nil =>
    intro m k
    simp
  | cons e rest ih =>
    intro m k
    rw [List.foldl_cons, ih, List.reverse_cons, List.find?_append]
    rcases hf : rest.reverse.find? (fun p => p.1 == k) with _ | q
    · rw [hf, Option.map_none', Option.none_or, Option.none_or, alLookup_alInsert]
      by_cases hk : k = e.1
      · rw [if_pos hk]
        have h1 : List.find? (fun p => p.1 == k) [e] = some e := by
          rw [List.find?_cons]
          have : (e.1 == k) = true := by simp [hk]
          rw [this]
        rw [h1, Option.map_some', Option.or_some]
      · rw [if_neg hk]
        have h1 : List.find? (fun p => p.1 == k) [e] = none := by
          rw [List.find?_eq_none]
          intro p hp
          simp only [List.mem_singleton] at hp
          subst hp
          simp only [beq_iff_eq]
          omega
        rw [h1, Option.map_none', Option.none_or]
    · rw [hf, Option.map_some', Option.or_some, Option.or_some, Option.map_some',
        Option.or_some]

theorem buildAux_nodup_mem : ∀ (entries : List (Int × Int)) (m : List (Int × Int)),
    (m.map Prod.fst).Nodup →
    (((entries.foldl (fun acc e => alInsert acc e.1 e.2) m).map Prod.fst).Nodup
    ∧ (∀ j, j ∈ (entries.foldl (fun acc e => alInsert acc e.1 e.2) m).map Prod.fst
        ↔ j ∈ m.map Prod.fst ∨ j ∈ entries.map Prod.fst)) := by
  intro entries
  induction entries with
  | nil =>
    intro m hm
    exact ⟨hm, fun j => by simp⟩
  | cons e rest ih =>
    intro m hm
    rw [List.foldl_cons]
    obtain ⟨h1, h2⟩ := ih (alInsert m e.1 e.2) (nodup_keys_alInsert hm e.1 e.2)
    refine ⟨h1, fun j => ?_⟩
    rw [h2 j, mem_keys_alInsert]
    simp
    tauto

theorem getSortedValues_length (m : List (Int × Int)) :
    (getSortedValues m).length = m.length := by
  unfold getSortedValues
  rw [(List.perm_insertionSort _ _).length_eq, List.length_map]

theorem buildIndexTable_eq (entries : List (Int × Int)) :
    buildIndexTable entries = entries.foldl (fun acc e => alInsert acc e.1 e.2) [] := rfl

theorem length_eq_dedup_length {l1 l2 : List Int} (h1 : l1.Nodup)
    (hmem : ∀ j, j ∈ l1 ↔ j ∈ l2) : l1.length = l2.dedup.length := by
  have hperm : l1.Perm l2.dedup :=
    (List.perm_ext_iff_of_nodup h1 (List.nodup_dedup l2)).mpr
      (fun a => by rw [hmem a, List.mem_dedup])
  exact hperm.length_eq

/-! ### C10: duplicate index ids collapse to one object -/

/-- A container file whose 16-byte index holds two entries with the same id 1
(both at offset 45); its class table has one field-free class with id 9, and
one object is stored at offset 45. -/
def dupIdFile : List Nat :=
  [68, 50, 79, 0, 0, 0, 7,
   0, 0, 0, 16, 0, 0, 0, 1, 0, 0, 0, 45, 0, 0, 0, 1, 0, 0, 0, 45,
   0, 0, 0, 1, 0, 0, 0, 9, 0, 1, 65, 0, 1, 112, 0, 0, 0, 0,
   0, 0, 0, 9]

/-- C10: the index is a map keyed by object id, so entries with equal ids
collapse (the map retains the last-read entry's offset); the number of
decoded objects equals the number of offsets, which is the number of distinct
ids; on a concrete file with a 16-byte index (2 entries) sharing one id, a
single object is decoded — strictly fewer than 16 / 8. -/
theorem c10_duplicate_ids_collapse :
    (∀ entries : List (Int × Int),
      ((buildIndexTable entries).map Prod.fst).Nodup
      ∧ (getSortedValues (buildIndexTable entries)).length
          = (entries.map Prod.fst).dedup.length
      ∧ (∀ k, alLookup (buildIndexTable entries) k
          = (entries.reverse.find? (fun p => p.1 == k)).map Prod.snd))
    ∧ (∀ (offs : List Int) (di : DataInput) (t : List (Int × Class)) (fuel : Nat)
        (vs : List Value) (st : DataInput),
        readObjectsLoop offs di t fuel = .ok (vs, st) → vs.length = offs.length)
    ∧ (ProcessD2oFile dupIdFile 20).map (fun d => d.Objects.length) = .ok 1
    ∧ (1 : Nat) < 16 / 8 := by
  refine ⟨fun entries => ⟨?_, ?_, ?_⟩, readObjectsLoop_length, by rfl, by norm_num⟩
  · rw [buildIndexTable_eq]
    exact (buildAux_nodup_mem entries [] (by simp)).1
  · rw [getSortedValues_length]
    have h1 := (buildAux_nodup_mem entries [] (by simp)).1
    have h2 := (buildAux_nodup_mem entries [] (by simp)).2
    have h3 : ((buildIndexTable entries).map Prod.fst).length
        = (entries.map Prod.fst).dedup.length := by
      rw [buildIndexTable_eq]
      apply length_eq_dedup_length h1
      intro j
      rw [h2 j]
      simp
    rw [← h3, List.length_map]
  · intro k
    rw [buildIndexTable_eq, alLookup_buildAux]
    rw [show alLookup ([] : List (Int × Int)) k = none from rfl, Option.or_none]

/-- Witness for C10: a one-offset loop returns exactly one object. -/
theorem c10_duplicate_ids_collapse_witness :
    ([Value.VObject [(classTypeKey, Value.VString [])]] : List Value).length
      = [(0 : Int)].length :=
  c10_duplicate_ids_collapse.2.1 [0] ⟨[0, 0, 0, 9], 0⟩ [(9, emptyClass)] 5
    [Value.VObject [(classTypeKey, Value.VString [])]] ⟨[0, 0, 0, 9], 4⟩ (by rfl)

end DofusParser
